import Mathlib

/-!
Verification of the `wasm-game` engine core (`board.rs`, `game.rs`).

Modelling conventions.  Machine integers (`u8`, `u16`, `u64`, `usize`) are
modelled as `Nat`; wrap-around is written explicitly (`% 2 ^ w`) at the one
operation where a genuine Rust value can overflow (`speed + 1` on a `u8`).
The `f32` coordinates are modelled as `ℚ` (exact arithmetic standing in for
the floating-point formulas).  A Rust `assert!` failure (a panic aborting
the call) is modelled by the operation returning `none`.  The fixed-size
arrays `[u64; 4]` and `[RawRow; 256]` are modelled as total functions from
indices; every public code path guards its indices before the array access,
exactly as the Rust asserts do, so indices beyond the array bounds are
never reached through the public API.
-/

namespace WasmGame

/-- High level cell/ball state (`board.rs`, `enum State`). -/
inductive State where
  | Lit
  | Dark
deriving DecidableEq, Repr

/-- The opposite cell/ball state (flipping a stored bit toggles between the
two states). -/
def State.other : State → State
  | .Lit => .Dark
  | .Dark => .Lit

/-- Size in bits of one storage word (`ROW_PART_SIZE` in `board.rs`). -/
def ROW_PART_SIZE : Nat := 64

/-- One raw row of the board (`RawRow = [u64; 4]`), as a total map from word
index to word value. -/
def RawRow : Type := Nat → Nat

/-- The raw board state (`RawState = [RawRow; 256]`). -/
def RawState : Type := Nat → RawRow

namespace StateOps

/-- Map a column index to its storage word index and bit position
(`StateOps::part_and_bit_index`). -/
def partAndBitIndex (colIndex : Nat) : Nat × Nat :=
  let partIndex := colIndex / ROW_PART_SIZE
  let bitIndex := min ROW_PART_SIZE (colIndex - partIndex * 64)
  (partIndex, bitIndex)

/-- One iteration of the initialization loop of `StateOps::initial`: add the
bit of column `colIndex` to its word (the Rust code uses `+=`; the bit is not
yet set, each column is visited once). -/
def setCol (row : RawRow) (colIndex : Nat) : RawRow :=
  let pb := partAndBitIndex colIndex
  fun p => if p = pb.1 then row pb.1 + (1 <<< pb.2) else row p

/-- The row built by the inner loop of `StateOps::initial`: the leftmost
`maxCellToLit` columns are lit. -/
def initialRow (maxCellToLit : Nat) : RawRow :=
  (List.range maxCellToLit).foldl setCol (fun _ => 0)

/-- Initial raw state (`StateOps::initial`): rows below `size` get their
leftmost `size / 2` columns lit, odd rows one more when `size` is odd; rows
at or beyond `size` stay all zero. -/
def initial (size : Nat) : RawState := fun rowIndex =>
  if rowIndex < size then
    initialRow (if size % 2 > 0 ∧ rowIndex % 2 > 0 then size / 2 + 1 else size / 2)
  else fun _ => 0

/-- Read one raw row (`StateOps::row` and `StateOps::row_mut`). -/
def row (state : RawState) (rowIndex : Nat) : RawRow :=
  state rowIndex

/-- Read a single cell of a row (`StateOps::cell`). -/
def cell (row : RawRow) (colIndex : Nat) : State :=
  let pb := partAndBitIndex colIndex
  if row pb.1 &&& (1 <<< pb.2) > 0 then State.Lit else State.Dark

/-- Toggle a single cell of a row in place (`StateOps::flip`). -/
def flip (row : RawRow) (colIndex : Nat) : RawRow :=
  let pb := partAndBitIndex colIndex
  fun p => if p = pb.1 then row pb.1 ^^^ (1 <<< pb.2) else row p

end StateOps

/-- The game board (`struct Board` in `board.rs`). -/
@[ext]
structure Board where
  size : Nat
  state : RawState

/-- The board value built by `Board::new` once its size assertion has
passed. -/
def Board.init (size : Nat) : Board :=
  { size := size, state := StateOps.initial size }

/-- Create and initialize a new board (`Board::new`); `none` models the
`size > 1` assertion firing. -/
def Board.new (size : Nat) : Option Board :=
  if size > 1 then some (Board.init size) else none

/-- Inspect a single cell (`Board::cell`, which goes through `Board::row`
and `Row::cell`): `Board::row` asserts `row_index < size`, then `Row::cell`
asserts `col_index < size`; `none` models either assertion firing. -/
def Board.cell (b : Board) (rowIndex colIndex : Nat) : Option State :=
  if rowIndex < b.size then
    if colIndex < b.size then
      some (StateOps.cell (StateOps.row b.state rowIndex) colIndex)
    else none
  else none

/-- The board after the in-place row mutation performed by `Board::flip`
(the row at `rowIndex` is replaced by its flipped version). -/
def Board.flipped (b : Board) (rowIndex colIndex : Nat) : Board :=
  { size := b.size
    state := fun r =>
      if r = rowIndex then StateOps.flip (b.state rowIndex) colIndex
      else b.state r }

/-- Flip the cell state at the given indices (`Board::flip`); `none` models
one of its two index assertions firing. -/
def Board.flip (b : Board) (rowIndex colIndex : Nat) : Option Board :=
  if rowIndex < b.size then
    if colIndex < b.size then
      some (b.flipped rowIndex colIndex)
    else none
  else none

/-! Basic lemmas about the bit-level board operations. -/

lemma StateOps.partAndBitIndex_eq (c : Nat) :
    StateOps.partAndBitIndex c = (c / 64, c % 64) := by
  show (c / 64, min 64 (c - c / 64 * 64)) = (c / 64, c % 64)
  have hmin : min 64 (c - c / 64 * 64) = c % 64 := by omega
  rw [hmin]

lemma StateOps.cell_eq_testBit (row : RawRow) (c : Nat) :
    StateOps.cell row c =
      if (row (c / 64)).testBit (c % 64) then State.Lit else State.Dark := by
  simp only [StateOps.cell, StateOps.partAndBitIndex_eq]
  rw [Nat.shiftLeft_eq, one_mul, Nat.and_two_pow]
  cases h : (row (c / 64)).testBit (c % 64) with
  | false => simp [h]
  | true => simp [h, Nat.two_pow_pos]

lemma StateOps.flip_apply (row : RawRow) (c p : Nat) :
    StateOps.flip row c p =
      if p = c / 64 then row (c / 64) ^^^ 2 ^ (c % 64) else row p := by
  simp only [StateOps.flip, StateOps.partAndBitIndex_eq]
  rw [Nat.shiftLeft_eq, one_mul]

lemma StateOps.flip_flip (row : RawRow) (c : Nat) :
    StateOps.flip (StateOps.flip row c) c = row := by
  funext p
  rw [StateOps.flip_apply, StateOps.flip_apply, StateOps.flip_apply]
  by_cases h : p = c / 64
  · simp [h, Nat.xor_cancel_right]
  · simp [h]

lemma StateOps.cell_flip_self (row : RawRow) (c : Nat) :
    StateOps.cell (StateOps.flip row c) c = (StateOps.cell row c).other := by
  rw [StateOps.cell_eq_testBit, StateOps.cell_eq_testBit, StateOps.flip_apply]
  simp only [if_pos rfl, Nat.testBit_xor, Nat.testBit_two_pow]
  cases h : (row (c / 64)).testBit (c % 64) <;> simp [h, State.other]

lemma StateOps.cell_flip_ne (row : RawRow) (c c' : Nat) (h : c' ≠ c) :
    StateOps.cell (StateOps.flip row c) c' = StateOps.cell row c' := by
  rw [StateOps.cell_eq_testBit, StateOps.cell_eq_testBit, StateOps.flip_apply]
  by_cases hp : c' / 64 = c / 64
  · have hb : c' % 64 ≠ c % 64 := by omega
    simp only [hp, if_pos rfl, Nat.testBit_xor, Nat.testBit_two_pow]
    simp [Ne.symm hb]
  · simp [hp]

/-! Closed form of the initial pattern. -/

lemma StateOps.initialRow_apply (m p : Nat) :
    StateOps.initialRow m p =
      if 64 * p < m then 2 ^ (min (m - 64 * p) 64) - 1 else 0 := by
  induction m generalizing p with
  | zero => simp [StateOps.initialRow]
  | succ n ih =>
    unfold StateOps.initialRow at ih ⊢
    rw [List.range_succ, List.foldl_append, List.foldl_cons, List.foldl_nil]
    simp only [StateOps.setCol, StateOps.partAndBitIndex_eq]
    rw [Nat.shiftLeft_eq, one_mul]
    by_cases hp : p = n / 64
    · rw [if_pos hp, hp, ih]
      by_cases h0 : n % 64 = 0
      · have h1 : ¬ 64 * (n / 64) < n := by omega
        have h2 : 64 * (n / 64) < n + 1 := by omega
        have h3 : min (n + 1 - 64 * (n / 64)) 64 = 1 := by omega
        simp [h1, h2, h3, h0]
      · have h1 : 64 * (n / 64) < n := by omega
        have h2 : 64 * (n / 64) < n + 1 := by omega
        have h3 : min (n - 64 * (n / 64)) 64 = n % 64 := by omega
        have h4 : min (n + 1 - 64 * (n / 64)) 64 = n % 64 + 1 := by omega
        rw [if_pos h1, if_pos h2, h3, h4]
        have h5 : 1 ≤ 2 ^ (n % 64) := Nat.one_le_two_pow
        have h6 : 2 ^ (n % 64 + 1) = 2 ^ (n % 64) * 2 := pow_succ 2 (n % 64)
        omega
    · rw [if_neg hp, ih]
      by_cases h : 64 * p < n
      · have h2 : 64 * p < n + 1 := by omega
        have h3 : min (n - 64 * p) 64 = 64 := by omega
        have h4 : min (n + 1 - 64 * p) 64 = 64 := by omega
        rw [if_pos h, if_pos h2, h3, h4]
      · have h2 : ¬ 64 * p < n + 1 := by omega
        rw [if_neg h, if_neg h2]

lemma StateOps.cell_initialRow (m c : Nat) :
    StateOps.cell (StateOps.initialRow m) c =
      if c < m then State.Lit else State.Dark := by
  rw [StateOps.cell_eq_testBit, StateOps.initialRow_apply]
  by_cases h : 64 * (c / 64) < m
  · rw [if_pos h, Nat.testBit_two_pow_sub_one]
    by_cases hc : c < m
    · have hb : c % 64 < min (m - 64 * (c / 64)) 64 := by omega
      simp [hb, hc]
    · have hb : ¬ c % 64 < min (m - 64 * (c / 64)) 64 := by omega
      simp [hb, hc]
  · rw [if_neg h]
    have hc : ¬ c < m := by omega
    simp [Nat.zero_testBit, hc]

/-! Helper lemmas about `Board.cell` and `Board.flip`. -/

lemma Board.cell_eq_some (b : Board) (r c : Nat) (hr : r < b.size) (hc : c < b.size) :
    b.cell r c = some (StateOps.cell (b.state r) c) := by
  simp [Board.cell, StateOps.row, hr, hc]

lemma Board.flip_eq_some (b : Board) (r c : Nat) (hr : r < b.size) (hc : c < b.size) :
    b.flip r c = some (b.flipped r c) := by
  simp [Board.flip, hr, hc]

lemma Board.flipped_size (b : Board) (r c : Nat) : (b.flipped r c).size = b.size := rfl

lemma Board.flip_bounds (b b' : Board) (r c : Nat) (h : b.flip r c = some b') :
    r < b.size ∧ c < b.size := by
  simp only [Board.flip] at h
  split_ifs at h with h1 h2
  · exact ⟨h1, h2⟩

lemma Board.size_of_flip (b b' : Board) (r c : Nat) (h : b.flip r c = some b') :
    b'.size = b.size := by
  obtain ⟨hr, hc⟩ := Board.flip_bounds b b' r c h
  rw [Board.flip_eq_some b r c hr hc] at h
  cases h
  rfl

lemma Board.flipped_flipped (b : Board) (r c : Nat) :
    (b.flipped r c).flipped r c = b := by
  refine Board.ext rfl ?_
  funext r'
  show (if r' = r then StateOps.flip ((b.flipped r c).state r) c
    else (b.flipped r c).state r') = b.state r'
  by_cases hrr : r' = r
  · subst hrr
    simp [Board.flipped, StateOps.flip_flip]
  · simp [Board.flipped, hrr]

lemma Board.cell_flipped_self (b : Board) (r c : Nat) (hr : r < b.size) (hc : c < b.size) :
    (b.flipped r c).cell r c = (b.cell r c).map State.other := by
  rw [Board.cell_eq_some (b.flipped r c) r c hr hc, Board.cell_eq_some b r c hr hc]
  simp [Board.flipped, StateOps.cell_flip_self]

lemma Board.cell_flipped_ne (b : Board) (r c r' c' : Nat) (hne : (r', c') ≠ (r, c)) :
    (b.flipped r c).cell r' c' = b.cell r' c' := by
  by_cases hr' : r' < b.size
  · by_cases hc' : c' < b.size
    · rw [Board.cell_eq_some (b.flipped r c) r' c' hr' hc',
        Board.cell_eq_some b r' c' hr' hc']
      by_cases hrr : r' = r
      · subst hrr
        have hcc : c' ≠ c := by
          intro hx; exact hne (by simp [hx])
        simp [Board.flipped, StateOps.cell_flip_ne _ _ _ hcc]
      · simp [Board.flipped, hrr]
    · simp [Board.cell, Board.flipped, hc']
  · simp [Board.cell, Board.flipped, hr']

lemma Board.cell_of_flip_self (b b' : Board) (r c : Nat) (h : b.flip r c = some b') :
    b'.cell r c = (b.cell r c).map State.other := by
  obtain ⟨hr, hc⟩ := Board.flip_bounds b b' r c h
  rw [Board.flip_eq_some b r c hr hc] at h
  cases h
  exact Board.cell_flipped_self b r c hr hc

lemma Board.cell_of_flip_ne (b b' : Board) (r c r' c' : Nat) (h : b.flip r c = some b')
    (hne : (r', c') ≠ (r, c)) : b'.cell r' c' = b.cell r' c' := by
  obtain ⟨hr, hc⟩ := Board.flip_bounds b b' r c h
  rw [Board.flip_eq_some b r c hr hc] at h
  cases h
  exact Board.cell_flipped_ne b r c r' c' hne

/-- C1: for every board size `s` with `2 ≤ s ≤ 255`, `Board::new(s)` yields a
board in which, for all in-range `(r, c)`, `cell(r, c)` is `Lit` exactly when
`c < s / 2`, or `s` is odd, `r` is odd and `c = s / 2`; every other in-range
cell is `Dark`. -/
theorem C1_initial_pattern (s r c : Nat) (h2 : 2 ≤ s) (h255 : s ≤ 255)
    (hr : r < s) (hc : c < s) (b : Board) (hb : Board.new s = some b) :
    (b.cell r c = some State.Lit ↔
      (c < s / 2 ∨ (s % 2 = 1 ∧ r % 2 = 1 ∧ c = s / 2))) ∧
    (¬ (c < s / 2 ∨ (s % 2 = 1 ∧ r % 2 = 1 ∧ c = s / 2)) →
      b.cell r c = some State.Dark) := by
  have h1 : 1 < s := by omega
  have hb' : b = Board.init s := by
    simp [Board.new, h1] at hb
    exact hb.symm
  subst hb'
  have hsize : (Board.init s).size = s := rfl
  have hcell : (Board.init s).cell r c =
      some (StateOps.cell (StateOps.initial s r) c) := by
    rw [Board.cell_eq_some _ r c (by simpa [hsize]) (by simpa [hsize])]
    rfl
  have hini : StateOps.initial s r =
      StateOps.initialRow (if s % 2 > 0 ∧ r % 2 > 0 then s / 2 + 1 else s / 2) := by
    simp [StateOps.initial, hr]
  rw [hcell, hini, StateOps.cell_initialRow]
  by_cases hodd : s % 2 > 0 ∧ r % 2 > 0
  · rw [if_pos hodd]
    by_cases hlt : c < s / 2 + 1
    · rw [if_pos hlt]
      constructor
      · constructor
        · intro _; omega
        · intro _; rfl
      · intro hn
        exact absurd (by omega) hn
    · rw [if_neg hlt]
      constructor
      · constructor
        · intro h; cases h
        · intro h; omega
      · intro _; rfl
  · rw [if_neg hodd]
    by_cases hlt : c < s / 2
    · rw [if_pos hlt]
      constructor
      · constructor
        · intro _; exact Or.inl hlt
        · intro _; rfl
      · intro hn
        exact absurd (Or.inl hlt) hn
    · rw [if_neg hlt]
      constructor
      · constructor
        · intro h; cases h
        · intro h; omega
      · intro _; rfl

/-- C1 witness: on the board of size 5, cell (1, 2) is `Lit` (odd size, odd
row: one extra lit column). -/
theorem C1_initial_pattern_witness :
    (2 ≤ 5 ∧ 5 ≤ 255 ∧ 1 < 5 ∧ 2 < 5) ∧
      (Board.init 5).cell 1 2 = some State.Lit := by
  have hnew : Board.new 5 = some (Board.init 5) := by
    simp [Board.new]
  refine ⟨⟨by omega, by omega, by omega, by omega⟩, ?_⟩
  exact (C1_initial_pattern 5 1 2 (by omega) (by omega) (by omega) (by omega)
    (Board.init 5) hnew).1.mpr (by omega)

/-- C7: for in-range `(r, c)`, flipping twice returns the board exactly to its
original state, and a single flip toggles cell `(r, c)` and leaves every other
cell unchanged. -/
theorem C7_flip_involution (b : Board) (r c : Nat) (hr : r < b.size) (hc : c < b.size) :
    ∃ b', b.flip r c = some b' ∧
      b'.flip r c = some b ∧
      b'.cell r c = (b.cell r c).map State.other ∧
      ∀ r' c', (r', c') ≠ (r, c) → b'.cell r' c' = b.cell r' c' := by
  have h1 := Board.flip_eq_some b r c hr hc
  refine ⟨b.flipped r c, h1, ?_, Board.cell_flipped_self b r c hr hc,
    fun r' c' hne => Board.cell_flipped_ne b r c r' c' hne⟩
  rw [Board.flip_eq_some (b.flipped r c) r c hr hc, Board.flipped_flipped]

/-- C7 witness: on the board of size 4, flipping the `Dark` cell (3, 2) once
turns it `Lit`. -/
theorem C7_flip_involution_witness :
    ((Board.init 4).flip 3 2).map (fun b2 => b2.cell 3 2) = some (some State.Lit) := by
  obtain ⟨b', h1, h2, h3, h4⟩ :=
    C7_flip_involution (Board.init 4) 3 2 (by decide) (by decide)
  rw [h1, Option.map_some', h3]
  have hcell : (Board.init 4).cell 3 2 = some State.Dark := by decide
  rw [hcell]
  rfl

/-- C9: `cell` and `flip` abort (return `none`, modelling the Rust assertion)
exactly when the row or column index reaches the board size; for in-range
indices both succeed, `cell` returning the stored state and `flip` toggling
it. -/
theorem C9_index_assertions (b : Board) (r c : Nat) :
    (b.cell r c = none ↔ b.size ≤ r ∨ b.size ≤ c) ∧
    (b.flip r c = none ↔ b.size ≤ r ∨ b.size ≤ c) ∧
    (r < b.size → c < b.size →
      b.cell r c = some (StateOps.cell (b.state r) c) ∧
      ∃ b', b.flip r c = some b' ∧
        b'.cell r c = some (State.other (StateOps.cell (b.state r) c))) := by
  refine ⟨?_, ?_, ?_⟩
  · simp only [Board.cell]
    split_ifs <;> simp <;> omega
  · simp only [Board.flip]
    split_ifs <;> simp <;> omega
  · intro hr hc
    refine ⟨Board.cell_eq_some b r c hr hc, ?_⟩
    have h1 := Board.flip_eq_some b r c hr hc
    refine ⟨_, h1, ?_⟩
    rw [Board.cell_of_flip_self b _ r c h1, Board.cell_eq_some b r c hr hc]
    rfl

/-- C9 witness: on the board of size 4, `cell` aborts at row 4 and succeeds
in range. -/
theorem C9_index_assertions_witness :
    (Board.init 4).cell 4 0 = none ∧ (Board.init 4).cell 1 0 = some State.Lit := by
  constructor
  · exact (C9_index_assertions (Board.init 4) 4 0).1.mpr (Or.inl (by decide))
  · obtain ⟨hcell, -⟩ :=
      (C9_index_assertions (Board.init 4) 1 0).2.2 (by decide) (by decide)
    rw [hcell]
    decide

/-! Physics (`game.rs`): positions, movement, bounce. -/

/-- Position or dimensions in coordinate space (`struct Position`); the `f32`
coordinates are modelled as `ℚ`. -/
@[ext]
structure Position where
  x : ℚ
  y : ℚ
deriving DecidableEq, Repr

/-- Base speed of a ball (`INITIAL_SPEED` in `game.rs`). -/
def INITIAL_SPEED : Nat := 100

/-- Direction and speed of one ball (`struct Movement`); `angle` is a `u16`
in degrees, `speed` a `u8`. -/
structure Movement where
  angle : Nat
  speed : Nat
deriving DecidableEq, Repr

/-- Axis of a reflection (`enum CollisionType`). -/
inductive CollisionType where
  | Horizontal
  | Vertical
deriving DecidableEq, Repr

/-- Reflect the movement after hitting an obstacle (`Movement::bounce`).
The speed update `(self.speed + 1).min(2 * INITIAL_SPEED)` is on a `u8`, so
the increment wraps at 256 (the release-mode Rust semantics; debug mode
panics on the same input, speed 255, so the claim fails there either way). -/
def Movement.bounce (m : Movement) (collisionType : CollisionType) : Movement :=
  let speedFactor := m.speed * 3 / INITIAL_SPEED
  let angle' :=
    match collisionType with
    | CollisionType.Horizontal => (540 - m.angle + speedFactor) % 360
    | CollisionType.Vertical => (360 - m.angle + speedFactor) % 360
  { angle := angle', speed := min ((m.speed + 1) % 256) (2 * INITIAL_SPEED) }

/-- Apply the movement to a position for `timeDiffMs` elapsed milliseconds
(`Movement::apply`); returns the new position. The movement itself is taken
by shared reference in Rust (`&self`) and is not modified. -/
def Movement.apply (m : Movement) (timeDiffMs : ℚ) (p : Position) : Position :=
  let positionDiff := ((m.speed : ℚ) / (INITIAL_SPEED : ℚ)) * timeDiffMs / 2
  let aComponent := ((m.angle % 90 : Nat) : ℚ) / 90
  let bComponent := 1 - aComponent
  let quadrant := (m.angle : ℚ) / 90
  let xy : ℚ × ℚ :=
    if quadrant < 1 then (bComponent, aComponent)
    else if quadrant < 2 then (-aComponent, bComponent)
    else if quadrant < 3 then (-aComponent, -bComponent)
    else (aComponent, -bComponent)
  ⟨p.x + positionDiff * xy.1, p.y + positionDiff * xy.2⟩

/-- C2 counterexample: at speed 201 (a valid `u8` exceeding
`2 * INITIAL_SPEED`), the claimed update `min(speed + 1, 2 * INITIAL_SPEED)`
produces 200, so the speed decreases, contradicting the claim's "speed never
decreases" for arbitrary speeds. -/
theorem C2_bounce_formula_counterexample :
    (Movement.bounce ⟨0, 201⟩ CollisionType.Horizontal).speed = 200 ∧
    ¬ (201 : Nat) ≤ (Movement.bounce ⟨0, 201⟩ CollisionType.Horizontal).speed := by
  decide

/-- C2 (amended): for every movement with angle in `[0, 360)` and speed at
most `2 * INITIAL_SPEED`, `bounce` sets the angle to
`(540 - angle + speed_factor) % 360` (Horizontal) or
`(360 - angle + speed_factor) % 360` (Vertical) with
`speed_factor = speed * 3 / INITIAL_SPEED` in integer division, and sets the
speed to `min(speed + 1, 2 * INITIAL_SPEED)`; the speed never decreases. -/
theorem C2_bounce_formula (m : Movement) (ct : CollisionType)
    (hangle : m.angle < 360) (hspeed : m.speed ≤ 2 * INITIAL_SPEED) :
    ((Movement.bounce m ct).angle =
      match ct with
      | CollisionType.Horizontal =>
          (540 - m.angle + m.speed * 3 / INITIAL_SPEED) % 360
      | CollisionType.Vertical =>
          (360 - m.angle + m.speed * 3 / INITIAL_SPEED) % 360) ∧
    (Movement.bounce m ct).speed = min (m.speed + 1) (2 * INITIAL_SPEED) ∧
    m.speed ≤ (Movement.bounce m ct).speed := by
  refine ⟨rfl, ?_, ?_⟩
  · show min ((m.speed + 1) % 256) (2 * INITIAL_SPEED) = min (m.speed + 1) (2 * INITIAL_SPEED)
    unfold INITIAL_SPEED at *
    omega
  · show m.speed ≤ min ((m.speed + 1) % 256) (2 * INITIAL_SPEED)
    unfold INITIAL_SPEED at *
    omega

/-- C2 witness: a Horizontal bounce at angle 40, speed 100 gives angle
`(540 - 40 + 3) % 360 = 143` and speed 101. -/
theorem C2_bounce_formula_witness :
    (Movement.bounce ⟨40, 100⟩ CollisionType.Horizontal).angle = 143 ∧
    (Movement.bounce ⟨40, 100⟩ CollisionType.Horizontal).speed = 101 := by
  obtain ⟨h1, h2, h3⟩ :=
    C2_bounce_formula ⟨40, 100⟩ CollisionType.Horizontal (by decide) (by decide)
  constructor
  · rw [h1]; decide
  · rw [h2]; decide

/-- C3: for angle in `[0, 360)`, `apply` adds
`position_diff = (speed / INITIAL_SPEED) * t / 2` times the component pair
selected by the quadrant `angle / 90` from `(b, a)`, `(-a, b)`, `(-a, -b)`,
`(a, -b)` (with `a = (angle % 90) / 90` and `b = 1 - a`) to the position,
component-wise. The movement itself (angle and speed) is untouched: `apply`
takes the movement immutably and only returns a position. -/
theorem C3_apply_decomposition (m : Movement) (t : ℚ) (p : Position)
    (hangle : m.angle < 360) :
    (m.angle / 90 = 0 → m.apply t p =
      ⟨p.x + ((m.speed : ℚ) / (INITIAL_SPEED : ℚ)) * t / 2 * (1 - ((m.angle % 90 : Nat) : ℚ) / 90),
       p.y + ((m.speed : ℚ) / (INITIAL_SPEED : ℚ)) * t / 2 * (((m.angle % 90 : Nat) : ℚ) / 90)⟩) ∧
    (m.angle / 90 = 1 → m.apply t p =
      ⟨p.x + ((m.speed : ℚ) / (INITIAL_SPEED : ℚ)) * t / 2 * -(((m.angle % 90 : Nat) : ℚ) / 90),
       p.y + ((m.speed : ℚ) / (INITIAL_SPEED : ℚ)) * t / 2 * (1 - ((m.angle % 90 : Nat) : ℚ) / 90)⟩) ∧
    (m.angle / 90 = 2 → m.apply t p =
      ⟨p.x + ((m.speed : ℚ) / (INITIAL_SPEED : ℚ)) * t / 2 * -(((m.angle % 90 : Nat) : ℚ) / 90),
       p.y + ((m.speed : ℚ) / (INITIAL_SPEED : ℚ)) * t / 2 * -(1 - ((m.angle % 90 : Nat) : ℚ) / 90)⟩) ∧
    (m.angle / 90 = 3 → m.apply t p =
      ⟨p.x + ((m.speed : ℚ) / (INITIAL_SPEED : ℚ)) * t / 2 * (((m.angle % 90 : Nat) : ℚ) / 90),
       p.y + ((m.speed : ℚ) / (INITIAL_SPEED : ℚ)) * t / 2 * -(1 - ((m.angle % 90 : Nat) : ℚ) / 90)⟩) := by
  refine ⟨?_, ?_, ?_, ?_⟩
  · intro hq
    have ha : m.angle < 90 := by omega
    have h1 : (m.angle : ℚ) / 90 < 1 :=
      (div_lt_one (by norm_num)).mpr (by exact_mod_cast ha)
    simp only [Movement.apply, if_pos h1]
  · intro hq
    have ha1 : 90 ≤ m.angle := by omega
    have ha2 : m.angle < 180 := by omega
    have h1 : ¬ (m.angle : ℚ) / 90 < 1 :=
      not_lt.mpr ((one_le_div (by norm_num)).mpr (by exact_mod_cast ha1))
    have h2 : (m.angle : ℚ) / 90 < 2 :=
      (div_lt_iff₀ (by norm_num)).mpr (by exact_mod_cast ha2)
    simp only [Movement.apply, if_neg h1, if_pos h2]
  · intro hq
    have ha1 : 180 ≤ m.angle := by omega
    have ha2 : m.angle < 270 := by omega
    have h1 : ¬ (m.angle : ℚ) / 90 < 1 :=
      not_lt.mpr ((one_le_div (by norm_num)).mpr (by exact_mod_cast (by omega : 90 ≤ m.angle)))
    have h2 : ¬ (m.angle : ℚ) / 90 < 2 := by
      rw [not_lt, le_div_iff₀ (by norm_num : (0:ℚ) < 90)]
      exact_mod_cast ha1
    have h3 : (m.angle : ℚ) / 90 < 3 :=
      (div_lt_iff₀ (by norm_num)).mpr (by exact_mod_cast ha2)
    simp only [Movement.apply, if_neg h1, if_neg h2, if_pos h3]
  · intro hq
    have ha1 : 270 ≤ m.angle := by omega
    have h1 : ¬ (m.angle : ℚ) / 90 < 1 :=
      not_lt.mpr ((one_le_div (by norm_num)).mpr (by exact_mod_cast (by omega : 90 ≤ m.angle)))
    have h2 : ¬ (m.angle : ℚ) / 90 < 2 := by
      rw [not_lt, le_div_iff₀ (by norm_num : (0:ℚ) < 90)]
      exact_mod_cast (by omega : 180 ≤ m.angle)
    have h3 : ¬ (m.angle : ℚ) / 90 < 3 := by
      rw [not_lt, le_div_iff₀ (by norm_num : (0:ℚ) < 90)]
      exact_mod_cast ha1
    simp only [Movement.apply, if_neg h1, if_neg h2, if_neg h3]

/-- C3 witness: angle 40 (quadrant 0), speed 100, 10 ms from the origin
moves by `5 * (5/9, 4/9)`. -/
theorem C3_apply_decomposition_witness :
    Movement.apply ⟨40, 100⟩ 10 ⟨0, 0⟩ = ⟨25 / 9, 20 / 9⟩ := by
  have h := (C3_apply_decomposition ⟨40, 100⟩ 10 ⟨0, 0⟩ (by decide)).1 (by decide)
  rw [h]
  refine Position.ext ?_ ?_ <;> show (_ : ℚ) = _ <;> norm_num [INITIAL_SPEED]

/-! Collision handling (`game.rs`, `struct Collisions`). -/

namespace Collisions

/-- Boundary collision check (`Collisions::boundaries`): the four viewport
edges are tested in source order (left, right, top, bottom), each clamping
the position in place and overwriting the pending collision axis; at the end
`bounce` is called at most once, with the last axis recorded. Returns the
clamped position and the (possibly bounced) movement. -/
def boundaries (position : Position) (movement : Movement) (ballRadius : ℚ)
    (viewportSize : Position) : Position × Movement :=
  let ct0 : Option CollisionType := none
  let px1 := if position.x < ballRadius then ballRadius else position.x
  let ct1 := if position.x < ballRadius then some CollisionType.Horizontal else ct0
  let px2 := if viewportSize.x - ballRadius ≤ px1 then viewportSize.x - ballRadius - 1 else px1
  let ct2 := if viewportSize.x - ballRadius ≤ px1 then some CollisionType.Horizontal else ct1
  let py1 := if position.y < ballRadius then ballRadius else position.y
  let ct3 := if position.y < ballRadius then some CollisionType.Vertical else ct2
  let py2 := if viewportSize.y - ballRadius ≤ py1 then viewportSize.y - ballRadius - 1 else py1
  let ct4 := if viewportSize.y - ballRadius ≤ py1 then some CollisionType.Vertical else ct3
  let movement' :=
    match ct4 with
    | some ct => movement.bounce ct
    | none => movement
  (⟨px2, py2⟩, movement')

end Collisions

/-- C4 counterexample: a ball at the top-left corner, `(0, 0)` with radius 5
in a `100 × 100` viewport, starts with `x < radius`, but the bottom edge
test list marks Vertical last, so the single bounce is Vertical, not the
Horizontal bounce the claim asserts. -/
theorem C4_boundaries_counterexample :
    (Position.mk 0 0).x < 5 ∧
    (Collisions.boundaries ⟨0, 0⟩ ⟨40, 100⟩ 5 ⟨100, 100⟩).2 ≠
      Movement.bounce ⟨40, 100⟩ CollisionType.Horizontal := by
  have hmov : (Collisions.boundaries ⟨0, 0⟩ ⟨40, 100⟩ 5 ⟨100, 100⟩).2 =
      Movement.bounce ⟨40, 100⟩ CollisionType.Vertical := by
    simp only [Collisions.boundaries]
    norm_num
  constructor
  · norm_num
  · rw [hmov]; decide

/-- C4 (amended): `boundaries` clamps `x` by the left test then the right
test (`radius` and `viewport.x - radius - 1` respectively), analogously `y`;
it calls `bounce` at most once, with the last-detected axis (any `y` edge
beats the `x` edges); if the body starts with `x < radius` and no other edge
test fires, it ends with `x = radius` exactly and its movement is the
Horizontal bounce of the original; a body fully inside the bounds is
returned entirely unchanged. -/
theorem C4_boundaries (p : Position) (m : Movement) (r : ℚ) (vp : Position) :
    ((Collisions.boundaries p m r vp).1.x =
      (if vp.x - r ≤ (if p.x < r then r else p.x) then vp.x - r - 1
       else if p.x < r then r else p.x)) ∧
    ((Collisions.boundaries p m r vp).1.y =
      (if vp.y - r ≤ (if p.y < r then r else p.y) then vp.y - r - 1
       else if p.y < r then r else p.y)) ∧
    ((Collisions.boundaries p m r vp).2 = m ∨
      (Collisions.boundaries p m r vp).2 = m.bounce CollisionType.Horizontal ∨
      (Collisions.boundaries p m r vp).2 = m.bounce CollisionType.Vertical) ∧
    ((p.y < r ∨ vp.y - r ≤ (if p.y < r then r else p.y)) →
      (Collisions.boundaries p m r vp).2 = m.bounce CollisionType.Vertical) ∧
    (¬ (p.y < r ∨ vp.y - r ≤ (if p.y < r then r else p.y)) →
      (p.x < r ∨ vp.x - r ≤ (if p.x < r then r else p.x)) →
      (Collisions.boundaries p m r vp).2 = m.bounce CollisionType.Horizontal) ∧
    (¬ (p.y < r ∨ vp.y - r ≤ (if p.y < r then r else p.y)) →
      ¬ (p.x < r ∨ vp.x - r ≤ (if p.x < r then r else p.x)) →
      (Collisions.boundaries p m r vp).2 = m) ∧
    (p.x < r → r < vp.x - r → r ≤ p.y → p.y < vp.y - r →
      (Collisions.boundaries p m r vp).1.x = r ∧
      (Collisions.boundaries p m r vp).2 = m.bounce CollisionType.Horizontal) ∧
    (r ≤ p.x → p.x < vp.x - r → r ≤ p.y → p.y < vp.y - r →
      Collisions.boundaries p m r vp = (p, m)) := by
  simp only [Collisions.boundaries]
  split_ifs <;>
    refine ⟨trivial, trivial, ?_, ?_, ?_, ?_, ?_, ?_⟩
  all_goals
    first
      | exact Or.inl rfl
      | exact Or.inr (Or.inl rfl)
      | exact Or.inr (Or.inr rfl)
      | (intros
         first
           | rfl
           | exact ⟨rfl, rfl⟩
           | (exfalso
              first
                | tauto
                | linarith))

/-- C4 witness: a body fully inside the bounds is unchanged. -/
theorem C4_boundaries_witness :
    Collisions.boundaries ⟨30, 30⟩ ⟨40, 100⟩ 5 ⟨100, 100⟩ = (⟨30, 30⟩, ⟨40, 100⟩) := by
  exact (C4_boundaries ⟨30, 30⟩ ⟨40, 100⟩ 5 ⟨100, 100⟩).2.2.2.2.2.2.2
    (by norm_num) (by norm_num) (by norm_num) (by norm_num)

/-- Saturating conversion of a floored coordinate ratio to a cell index (the
Rust `as board::Index` cast of an `f32` to a `u8` clamps into `[0, 255]`). -/
def toIndexCast (q : ℚ) : Nat := min 255 (Int.toNat ⌊q⌋)

/-- State threaded through the corner loop of `Collisions::board`: the board,
the pending collision axis and, as ghost instrumentation absent from the Rust
code, the list of cells flipped so far in order. -/
abbrev BoardAcc : Type := Board × Option CollisionType × List (Nat × Nat)

namespace Collisions

/-- One iteration of the corner loop of `Collisions::board`, for the corner
`corner` of the bounding square: compute the containing cell, read it (`none`
models the `Board::cell` index assertion firing) and, when the cell belongs
to the opposing state and the proximity check passes, flip it and overwrite
the pending collision axis. -/
def cornerCheck (position : Position) (cellSize : Position) (ballRadius : ℚ)
    (kind : State) (st : BoardAcc) (corner : ℚ × ℚ) : Option BoardAcc :=
  let cellX := toIndexCast (corner.1 / cellSize.x)
  let cellY := toIndexCast (corner.2 / cellSize.y)
  match st.1.cell cellY cellX with
  | none => none
  | some atKind =>
    if kind ≠ atKind then
      let cellCenterX := ((cellX : ℚ) + 0.5) * cellSize.x
      let cellCenterY := ((cellY : ℚ) + 0.5) * cellSize.y
      let distanceX := |cellCenterX - position.x|
      let distanceY := |cellCenterY - position.y|
      let distanceSq := distanceX * distanceX + distanceY * distanceY
      let cellSizeAvg := (cellSize.x + cellSize.y) / 4
      let maxDistance := cellSizeAvg * 0.95 + ballRadius
      let maxDistanceSq := maxDistance * maxDistance
      if distanceSq < maxDistanceSq then
        match st.1.flip cellY cellX with
        | none => none
        | some b' =>
          some (b',
            if |cellCenterX - position.x| < |cellCenterY - position.y| then
              some CollisionType.Vertical
            else some CollisionType.Horizontal,
            st.2.2 ++ [(cellY, cellX)])
      else some st
    else some st

/-- Board collision check (`Collisions::board`): the four corners of the
body's bounding square are examined in source order (`x + r` before `x - r`,
`y + r` before `y - r`); afterwards `bounce` is applied at most once, with
the last recorded axis. Returns the untouched position, the movement, the
updated board and the ghost list of flipped cells. -/
def board (position : Position) (movement : Movement) (ballRadius : ℚ)
    (cellSize : Position) (b : Board) (kind : State) :
    Option (Position × Movement × Board × List (Nat × Nat)) :=
  match cornerCheck position cellSize ballRadius kind (b, none, [])
      (position.x + ballRadius, position.y + ballRadius) with
  | none => none
  | some st1 =>
    match cornerCheck position cellSize ballRadius kind st1
        (position.x + ballRadius, position.y - ballRadius) with
    | none => none
    | some st2 =>
      match cornerCheck position cellSize ballRadius kind st2
          (position.x - ballRadius, position.y + ballRadius) with
      | none => none
      | some st3 =>
        match cornerCheck position cellSize ballRadius kind st3
            (position.x - ballRadius, position.y - ballRadius) with
        | none => none
        | some st4 =>
          some (position,
            (match st4.2.1 with
             | some ct => movement.bounce ct
             | none => movement),
            st4.1, st4.2.2)

end Collisions

lemma State.other_other (s : State) : State.other (State.other s) = s := by
  cases s <;> rfl

lemma State.other_eq_of_ne (kind atKind : State) (h : kind ≠ atKind) :
    atKind = State.other kind := by
  cases kind <;> cases atKind <;> simp_all [State.other]

/-- Invariant of the corner loop relative to the starting board `b0`: the
board size is preserved, no cell has been flipped twice, every flipped cell
was of the opposing state in `b0` and now reads `kind`, and every other cell
still reads as in `b0`. -/
def FlipInv (b0 : Board) (kind : State) (st : BoardAcc) : Prop :=
  st.1.size = b0.size ∧
  st.2.2.Nodup ∧
  (∀ rc ∈ st.2.2, b0.cell rc.1 rc.2 = some (State.other kind) ∧
    st.1.cell rc.1 rc.2 = some kind) ∧
  (∀ rc : Nat × Nat, rc ∉ st.2.2 → st.1.cell rc.1 rc.2 = b0.cell rc.1 rc.2)

lemma cornerCheck_inv {b0 : Board} {kind : State} {position cellSize : Position}
    {ballRadius : ℚ} {st st' : BoardAcc} {corner : ℚ × ℚ}
    (hinv : FlipInv b0 kind st)
    (h : Collisions.cornerCheck position cellSize ballRadius kind st corner = some st') :
    FlipInv b0 kind st' ∧ st'.2.2.length ≤ st.2.2.length + 1 := by
  simp only [Collisions.cornerCheck] at h
  set cx := toIndexCast (corner.1 / cellSize.x) with hcxdef
  set cy := toIndexCast (corner.2 / cellSize.y) with hcydef
  split at h
  · exact Option.noConfusion h
  · rename_i atKind hcell
    split at h
    · rename_i hk
      split at h
      · split at h
        · exact Option.noConfusion h
        · rename_i b' hflip
          obtain rfl := (Option.some.inj h).symm
          have hnotmem : (cy, cx) ∉ st.2.2 := by
            intro hmem
            have hkind := (hinv.2.2.1 (cy, cx) hmem).2
            rw [hcell] at hkind
            exact hk (Option.some.inj hkind).symm
          have hother : atKind = State.other kind := State.other_eq_of_ne kind atKind hk
          have hb0 : b0.cell cy cx = some atKind := by
            rw [← hinv.2.2.2 (cy, cx) hnotmem]
            exact hcell
          refine ⟨⟨?_, ?_, ?_, ?_⟩, ?_⟩
          · rw [Board.size_of_flip st.1 b' cy cx hflip]
            exact hinv.1
          · rw [List.nodup_append]
            refine ⟨hinv.2.1, List.nodup_singleton _, ?_⟩
            intro a ha hb
            rw [List.mem_singleton] at hb
            exact hnotmem (hb ▸ ha)
          · intro rc hrc
            rcases List.mem_append.mp hrc with hin | hin
            · have hne : rc ≠ (cy, cx) := fun he => hnotmem (he ▸ hin)
              refine ⟨(hinv.2.2.1 rc hin).1, ?_⟩
              rw [Board.cell_of_flip_ne st.1 b' cy cx rc.1 rc.2 hflip hne]
              exact (hinv.2.2.1 rc hin).2
            · rw [List.mem_singleton] at hin
              subst hin
              refine ⟨by rw [hb0, hother], ?_⟩
              rw [Board.cell_of_flip_self st.1 b' cy cx hflip, hcell,
                Option.map_some', hother, State.other_other]
          · intro rc hrc
            rw [List.mem_append, List.mem_singleton] at hrc
            push_neg at hrc
            rw [Board.cell_of_flip_ne st.1 b' cy cx rc.1 rc.2 hflip hrc.2]
            exact hinv.2.2.2 rc hrc.1
          · simp
      · obtain rfl := (Option.some.inj h).symm
        exact ⟨hinv, by omega⟩
    · obtain rfl := (Option.some.inj h).symm
      exact ⟨hinv, by omega⟩

/-- Combined specification of one `Collisions::board` call: position is
untouched, the movement bounces at most once, the board size is preserved,
at most four cells are flipped, no cell twice, and each flipped cell was of
the opposing state before the call and reads `kind` after it. -/
lemma board_spec (position : Position) (movement : Movement) (ballRadius : ℚ)
    (cellSize : Position) (b : Board) (kind : State)
    (res : Position × Movement × Board × List (Nat × Nat))
    (h : Collisions.board position movement ballRadius cellSize b kind = some res) :
    res.1 = position ∧
    (res.2.1 = movement ∨ res.2.1 = movement.bounce CollisionType.Horizontal ∨
      res.2.1 = movement.bounce CollisionType.Vertical) ∧
    res.2.2.1.size = b.size ∧
    res.2.2.2.Nodup ∧
    res.2.2.2.length ≤ 4 ∧
    (∀ rc ∈ res.2.2.2, b.cell rc.1 rc.2 = some (State.other kind) ∧
      res.2.2.1.cell rc.1 rc.2 = some kind) := by
  have hinv0 : FlipInv b kind (b, none, []) :=
    ⟨rfl, List.nodup_nil, by simp, fun rc _ => rfl⟩
  simp only [Collisions.board] at h
  split at h
  · exact Option.noConfusion h
  · rename_i st1 hc1
    split at h
    · exact Option.noConfusion h
    · rename_i st2 hc2
      split at h
      · exact Option.noConfusion h
      · rename_i st3 hc3
        split at h
        · exact Option.noConfusion h
        · rename_i st4 hc4
          obtain rfl := (Option.some.inj h).symm
          obtain ⟨hinv1, hl1⟩ := cornerCheck_inv hinv0 hc1
          obtain ⟨hinv2, hl2⟩ := cornerCheck_inv hinv1 hc2
          obtain ⟨hinv3, hl3⟩ := cornerCheck_inv hinv2 hc3
          obtain ⟨hinv4, hl4⟩ := cornerCheck_inv hinv3 hc4
          have hl1' : st1.2.2.length ≤ 1 := by simpa using hl1
          refine ⟨rfl, ?_, hinv4.1, hinv4.2.1, ?_, hinv4.2.2.1⟩
          · cases hct : st4.2.1 with
            | none => exact Or.inl rfl
            | some ct =>
              cases ct with
              | Horizontal => exact Or.inr (Or.inl rfl)
              | Vertical => exact Or.inr (Or.inr rfl)
          · show st4.2.2.length ≤ 4
            omega

/-- C10: every successful `Collisions::board` call leaves the position
untouched and flips at most four cells, none more than once; each flipped
cell was of the state opposite to the body's `kind` before the call and
holds `kind` afterwards. -/
theorem C10_board_flip_discipline (position : Position) (movement : Movement)
    (ballRadius : ℚ) (cellSize : Position) (b : Board) (kind : State)
    (res : Position × Movement × Board × List (Nat × Nat))
    (h : Collisions.board position movement ballRadius cellSize b kind = some res) :
    res.1 = position ∧
    res.2.2.2.Nodup ∧
    res.2.2.2.length ≤ 4 ∧
    (∀ rc ∈ res.2.2.2, b.cell rc.1 rc.2 = some (State.other kind) ∧
      res.2.2.1.cell rc.1 rc.2 = some kind) := by
  obtain ⟨h1, -, -, h4, h5, h6⟩ :=
    board_spec position movement ballRadius cellSize b kind res h
  exact ⟨h1, h4, h5, h6⟩

/-- C10 witness: a concrete call on the size-4 board (a Lit ball sitting on
Lit cells, so no corner fires); its position component is returned
unchanged. -/
theorem C10_board_flip_discipline_witness :
    (Collisions.board ⟨10, 20⟩ ⟨40, 100⟩ 5 ⟨10, 10⟩ (Board.init 4) State.Lit).map
      (fun res => res.1) = some (Position.mk 10 20) := by
  have hb : Collisions.board ⟨10, 20⟩ ⟨40, 100⟩ 5 ⟨10, 10⟩ (Board.init 4) State.Lit
      = some (⟨10, 20⟩, ⟨40, 100⟩, Board.init 4, []) := by
    have e1 : toIndexCast (((10:ℚ) + 5) / 10) = 1 := by norm_num [toIndexCast]
    have e2 : toIndexCast (((10:ℚ) - 5) / 10) = 0 := by norm_num [toIndexCast]
    have e3 : toIndexCast (((20:ℚ) + 5) / 10) = 2 := by
      norm_num [toIndexCast] <;> decide
    have e4 : toIndexCast (((20:ℚ) - 5) / 10) = 1 := by norm_num [toIndexCast]
    have c1 : (Board.init 4).cell 2 1 = some State.Lit := by decide
    have c2 : (Board.init 4).cell 1 1 = some State.Lit := by decide
    have c3 : (Board.init 4).cell 2 0 = some State.Lit := by decide
    have c4 : (Board.init 4).cell 1 0 = some State.Lit := by decide
    simp [Collisions.board, Collisions.cornerCheck, e1, e2, e3, e4, c1, c2, c3, c4]
  have h1 := (C10_board_flip_discipline ⟨10, 20⟩ ⟨40, 100⟩ 5 ⟨10, 10⟩
    (Board.init 4) State.Lit _ hb).1
  rw [hb, Option.map_some', h1]

/-! Index safety of the board collision check (claim C5). -/

lemma toIndexCast_lt (q : ℚ) (sz : Nat) (hsz : 1 ≤ sz) (h : q < (sz : ℚ)) :
    toIndexCast q < sz := by
  unfold toIndexCast
  rcases lt_or_le ⌊q⌋ 0 with hneg | hpos
  · have h0 : ⌊q⌋.toNat = 0 := Int.toNat_of_nonpos (le_of_lt hneg)
    rw [h0]
    simpa using hsz
  · have h1 : ⌊q⌋ < (sz : ℤ) := Int.floor_lt.mpr (by exact_mod_cast h)
    have h2 : ⌊q⌋.toNat < sz := by omega
    exact lt_of_le_of_lt (min_le_right _ _) h2

lemma boundaries_x_lt (p : Position) (m : Movement) (r : ℚ) (vp : Position) :
    (Collisions.boundaries p m r vp).1.x < vp.x - r := by
  simp only [Collisions.boundaries]
  split_ifs <;> linarith

lemma boundaries_y_lt (p : Position) (m : Movement) (r : ℚ) (vp : Position) :
    (Collisions.boundaries p m r vp).1.y < vp.y - r := by
  simp only [Collisions.boundaries]
  split_ifs <;> linarith

lemma cornerCheck_size {position cellSize : Position} {ballRadius : ℚ}
    {kind : State} {st st' : BoardAcc} {corner : ℚ × ℚ}
    (h : Collisions.cornerCheck position cellSize ballRadius kind st corner = some st') :
    st'.1.size = st.1.size := by
  simp only [Collisions.cornerCheck] at h
  split at h
  · exact Option.noConfusion h
  · split at h
    · split at h
      · split at h
        · exact Option.noConfusion h
        · rename_i b' hflip
          obtain rfl := (Option.some.inj h).symm
          exact Board.size_of_flip st.1 b' _ _ hflip
      · obtain rfl := (Option.some.inj h).symm
        rfl
    · obtain rfl := (Option.some.inj h).symm
      rfl

lemma cornerCheck_ne_none (position cellSize : Position) (ballRadius : ℚ)
    (kind : State) (st : BoardAcc) (corner : ℚ × ℚ)
    (hx : toIndexCast (corner.1 / cellSize.x) < st.1.size)
    (hy : toIndexCast (corner.2 / cellSize.y) < st.1.size) :
    Collisions.cornerCheck position cellSize ballRadius kind st corner ≠ none := by
  intro h
  simp only [Collisions.cornerCheck] at h
  split at h
  · rename_i hcell
    rw [Board.cell_eq_some st.1 _ _ hy hx] at hcell
    exact Option.noConfusion hcell
  · split at h
    · split at h
      · split at h
        · rename_i hflip
          rw [Board.flip_eq_some st.1 _ _ hy hx] at hflip
          exact Option.noConfusion hflip
        · exact Option.noConfusion h
      · exact Option.noConfusion h
    · exact Option.noConfusion h

lemma cornerCheck_isSome (position cellSize : Position) (ballRadius : ℚ)
    (kind : State) (st : BoardAcc) (corner : ℚ × ℚ)
    (hx : toIndexCast (corner.1 / cellSize.x) < st.1.size)
    (hy : toIndexCast (corner.2 / cellSize.y) < st.1.size) :
    ∃ st', Collisions.cornerCheck position cellSize ballRadius kind st corner = some st' ∧
      st'.1.size = st.1.size := by
  cases hc : Collisions.cornerCheck position cellSize ballRadius kind st corner with
  | none => exact absurd hc (cornerCheck_ne_none position cellSize ballRadius kind st
      corner hx hy)
  | some st' => exact ⟨st', rfl, cornerCheck_size hc⟩

lemma clamped_indices_spec (p : Position) (m : Movement) (vp cs : Position)
    (sz : Nat) (r : ℚ) (hsz : 2 ≤ sz)
    (hcx : cs.x = vp.x / (sz : ℚ)) (hcy : cs.y = vp.y / (sz : ℚ))
    (hx1 : 1 < cs.x) (hy1 : 1 < cs.y) (hr : r = (cs.x + cs.y) / 4) :
    toIndexCast (((Collisions.boundaries p m r vp).1.x + r) / cs.x) < sz ∧
    toIndexCast (((Collisions.boundaries p m r vp).1.x - r) / cs.x) < sz ∧
    toIndexCast (((Collisions.boundaries p m r vp).1.y + r) / cs.y) < sz ∧
    toIndexCast (((Collisions.boundaries p m r vp).1.y - r) / cs.y) < sz ∧
    ∀ (b : Board) (kind : State) (m' : Movement), b.size = sz →
      (Collisions.board (Collisions.boundaries p m r vp).1 m' r cs b kind).isSome
        = true := by
  have hr0 : 0 < r := by rw [hr]; linarith
  have hcx0 : 0 < cs.x := by linarith
  have hcy0 : 0 < cs.y := by linarith
  have hszq : (0 : ℚ) < (sz : ℚ) := by
    have : (0 : ℚ) < ((2 : Nat) : ℚ) := by norm_num
    calc (0:ℚ) < ((2 : Nat) : ℚ) := this
    _ ≤ (sz : ℚ) := by exact_mod_cast hsz
  have hvpx : vp.x = (sz : ℚ) * cs.x := by
    rw [hcx]
    field_simp
  have hvpy : vp.y = (sz : ℚ) * cs.y := by
    rw [hcy]
    field_simp
  have hxlt := boundaries_x_lt p m r vp
  have hylt := boundaries_y_lt p m r vp
  have hkey : ∀ q c : ℚ, 0 < c → q < (sz : ℚ) * c → toIndexCast (q / c) < sz := by
    intro q c hc hq
    exact toIndexCast_lt _ sz (by omega) ((div_lt_iff₀ hc).mpr (by linarith))
  have hxp : toIndexCast (((Collisions.boundaries p m r vp).1.x + r) / cs.x) < sz :=
    hkey _ _ hcx0 (by rw [← hvpx]; linarith)
  have hxm : toIndexCast (((Collisions.boundaries p m r vp).1.x - r) / cs.x) < sz :=
    hkey _ _ hcx0 (by rw [← hvpx]; linarith)
  have hyp : toIndexCast (((Collisions.boundaries p m r vp).1.y + r) / cs.y) < sz :=
    hkey _ _ hcy0 (by rw [← hvpy]; linarith)
  have hym : toIndexCast (((Collisions.boundaries p m r vp).1.y - r) / cs.y) < sz :=
    hkey _ _ hcy0 (by rw [← hvpy]; linarith)
  refine ⟨hxp, hxm, hyp, hym, ?_⟩
  intro b kind m' hb
  obtain ⟨st1, hc1, hs1⟩ := cornerCheck_isSome (Collisions.boundaries p m r vp).1
    cs r kind (b, none, [])
    ((Collisions.boundaries p m r vp).1.x + r, (Collisions.boundaries p m r vp).1.y + r)
    (by simpa [hb] using hxp) (by simpa [hb] using hyp)
  obtain ⟨st2, hc2, hs2⟩ := cornerCheck_isSome (Collisions.boundaries p m r vp).1
    cs r kind st1
    ((Collisions.boundaries p m r vp).1.x + r, (Collisions.boundaries p m r vp).1.y - r)
    (by rw [hs1]; simpa [hb] using hxp) (by rw [hs1]; simpa [hb] using hym)
  obtain ⟨st3, hc3, hs3⟩ := cornerCheck_isSome (Collisions.boundaries p m r vp).1
    cs r kind st2
    ((Collisions.boundaries p m r vp).1.x - r, (Collisions.boundaries p m r vp).1.y + r)
    (by rw [hs2, hs1]; simpa [hb] using hxm) (by rw [hs2, hs1]; simpa [hb] using hyp)
  obtain ⟨st4, hc4, hs4⟩ := cornerCheck_isSome (Collisions.boundaries p m r vp).1
    cs r kind st3
    ((Collisions.boundaries p m r vp).1.x - r, (Collisions.boundaries p m r vp).1.y - r)
    (by rw [hs3, hs2, hs1]; simpa [hb] using hxm)
    (by rw [hs3, hs2, hs1]; simpa [hb] using hym)
  simp only [Collisions.board, hc1, hc2, hc3, hc4]
  rfl

/-- C5: under the construction invariants of `Game::new` (cell size equal to
viewport over board size and larger than 1 in both axes, radius equal to the
quarter-sum of the cell sizes), every cell index that `Collisions::board`
computes from the bounding-box corners of a position already clamped by
`Collisions::boundaries` is strictly below the board size, so the
out-of-range assertions of `Board::cell` and `Board::flip` cannot fire
inside `Game::tick`: the board check always returns `some`. -/
theorem C5_indices_in_range (p : Position) (m : Movement) (vp cs : Position)
    (sz : Nat) (r : ℚ) (hsz : 2 ≤ sz)
    (hcx : cs.x = vp.x / (sz : ℚ)) (hcy : cs.y = vp.y / (sz : ℚ))
    (hx1 : 1 < cs.x) (hy1 : 1 < cs.y) (hr : r = (cs.x + cs.y) / 4) :
    toIndexCast (((Collisions.boundaries p m r vp).1.x + r) / cs.x) < sz ∧
    toIndexCast (((Collisions.boundaries p m r vp).1.x - r) / cs.x) < sz ∧
    toIndexCast (((Collisions.boundaries p m r vp).1.y + r) / cs.y) < sz ∧
    toIndexCast (((Collisions.boundaries p m r vp).1.y - r) / cs.y) < sz ∧
    ∀ (b : Board) (kind : State) (m' : Movement), b.size = sz →
      (Collisions.board (Collisions.boundaries p m r vp).1 m' r cs b kind).isSome
        = true :=
  clamped_indices_spec p m vp cs sz r hsz hcx hcy hx1 hy1 hr

/-- C5 witness: a concrete configuration (board size 16, viewport 160 by 160,
cell size 10, radius 5) with the ball clamped from the corner; the computed
column index of the right bounding edge is in range. -/
theorem C5_indices_in_range_witness :
    toIndexCast (((Collisions.boundaries ⟨0, 0⟩ ⟨40, 100⟩ 5 ⟨160, 160⟩).1.x + 5) / 10)
      < 16 := by
  exact (C5_indices_in_range ⟨0, 0⟩ ⟨40, 100⟩ ⟨160, 160⟩ ⟨10, 10⟩ 16 5
    (by norm_num) (by norm_num) (by norm_num) (by norm_num) (by norm_num)
    (by norm_num)).1

/-! The game object (`game.rs`, `struct Game`). -/

/-- Main game object encapsulating all parts of the game (`struct Game`). -/
structure Game where
  board : Board
  viewport_size : Position
  time : Nat
  cell_size : Position
  ball_radius : ℚ
  lit_ball : Position × Movement
  dark_ball : Position × Movement

/-- Create a new game object (`Game::new`); `none` models one of the two
cell-size assertions firing. -/
def Game.new (board : Board) (startTimeMs : Nat) (viewportSize : Position) :
    Option Game :=
  let halfView : Position := ⟨viewportSize.x / 2, viewportSize.y / 2⟩
  let y := halfView.y
  let initPosDark : Position := ⟨halfView.x / 2 + halfView.x, y⟩
  let initPosLit : Position := ⟨halfView.x / 2, y⟩
  let movementDark : Movement := ⟨220, INITIAL_SPEED⟩
  let movementLit : Movement := ⟨40, INITIAL_SPEED⟩
  let cellSize : Position :=
    ⟨viewportSize.x / (board.size : ℚ), viewportSize.y / (board.size : ℚ)⟩
  if 1 < cellSize.x ∧ 1 < cellSize.y then
    some { board := board
           viewport_size := viewportSize
           time := startTimeMs
           cell_size := cellSize
           ball_radius := (cellSize.x + cellSize.y) / 4
           lit_ball := (initPosLit, movementLit)
           dark_ball := (initPosDark, movementDark) }
  else none

/-- One ball's update inside the loop of `Game::tick`: `Movement::apply`,
then `Collisions::boundaries`, then `Collisions::board` (the ghost flip list
is dropped). -/
def Game.tickBall (dt : ℚ) (pm : Position × Movement) (ballRadius : ℚ)
    (cellSize viewportSize : Position) (b : Board) (kind : State) :
    Option (Position × Movement × Board) :=
  let p1 := pm.2.apply dt pm.1
  let pm2 := Collisions.boundaries p1 pm.2 ballRadius viewportSize
  match Collisions.board pm2.1 pm2.2 ballRadius cellSize b kind with
  | none => none
  | some (p3, m3, b3, _) => some (p3, m3, b3)

/-- Recalculate object positions and check collisions (`Game::tick`);
`none` models the time-monotonicity assertion firing (or, unreachable under
the construction invariants, an index assertion further down). The loop
processes the Lit ball first, then the Dark ball on the updated board. -/
def Game.tick (g : Game) (timeMs : Nat) : Option Game :=
  if g.time < timeMs then
    let dt : ℚ := ((timeMs - g.time : Nat) : ℚ)
    match Game.tickBall dt g.lit_ball g.ball_radius g.cell_size g.viewport_size
        g.board State.Lit with
    | none => none
    | some (pl, ml, b1) =>
      match Game.tickBall dt g.dark_ball g.ball_radius g.cell_size g.viewport_size
          b1 State.Dark with
      | none => none
      | some (pd, md, b2) =>
        some { board := b2
               viewport_size := g.viewport_size
               time := timeMs
               cell_size := g.cell_size
               ball_radius := g.ball_radius
               lit_ball := (pl, ml)
               dark_ball := (pd, md) }
  else none

/-- Construction invariants established by `Game::new` and preserved by
`Game::tick` (all fields involved are immutable after construction, except
the board whose size never changes). -/
def GameInv (g : Game) : Prop :=
  2 ≤ g.board.size ∧
  g.cell_size.x = g.viewport_size.x / ((g.board.size : Nat) : ℚ) ∧
  g.cell_size.y = g.viewport_size.y / ((g.board.size : Nat) : ℚ) ∧
  1 < g.cell_size.x ∧ 1 < g.cell_size.y ∧
  g.ball_radius = (g.cell_size.x + g.cell_size.y) / 4

lemma tickBall_isSome (dt : ℚ) (pm : Position × Movement) (r : ℚ)
    (cs vp : Position) (b : Board) (kind : State) (sz : Nat) (hsz : 2 ≤ sz)
    (hcx : cs.x = vp.x / (sz : ℚ)) (hcy : cs.y = vp.y / (sz : ℚ))
    (hx1 : 1 < cs.x) (hy1 : 1 < cs.y) (hr : r = (cs.x + cs.y) / 4)
    (hb : b.size = sz) :
    ∃ out, Game.tickBall dt pm r cs vp b kind = some out ∧ out.2.2.size = sz := by
  have h := (clamped_indices_spec (pm.2.apply dt pm.1) pm.2 vp cs sz r hsz hcx hcy
    hx1 hy1 hr).2.2.2.2 b kind
    (Collisions.boundaries (pm.2.apply dt pm.1) pm.2 r vp).2 hb
  simp only [Game.tickBall]
  cases hres : Collisions.board (Collisions.boundaries (pm.2.apply dt pm.1) pm.2 r vp).1
      (Collisions.boundaries (pm.2.apply dt pm.1) pm.2 r vp).2 r cs b kind with
  | none =>
    rw [hres] at h
    exact Bool.noConfusion h
  | some res =>
    obtain ⟨p3, m3, b3, fl⟩ := res
    refine ⟨(p3, m3, b3), rfl, ?_⟩
    have hsize := (board_spec _ _ _ _ _ _ _ hres).2.2.1
    rw [hb] at hsize
    exact hsize

lemma new_spec (b : Board) (t : Nat) (vp : Position) (g : Game)
    (h : Game.new b t vp = some g) :
    g.board = b ∧ g.viewport_size = vp ∧ g.time = t ∧
    g.cell_size = ⟨vp.x / ((b.size : Nat) : ℚ), vp.y / ((b.size : Nat) : ℚ)⟩ ∧
    g.ball_radius = (g.cell_size.x + g.cell_size.y) / 4 ∧
    g.lit_ball = (⟨vp.x / 2 / 2, vp.y / 2⟩, ⟨40, INITIAL_SPEED⟩) ∧
    g.dark_ball = (⟨vp.x / 2 / 2 + vp.x / 2, vp.y / 2⟩, ⟨220, INITIAL_SPEED⟩) ∧
    1 < g.cell_size.x ∧ 1 < g.cell_size.y := by
  simp only [Game.new] at h
  split_ifs at h with hc
  obtain rfl := (Option.some.inj h).symm
  exact ⟨rfl, rfl, rfl, rfl, rfl, rfl, rfl, hc.1, hc.2⟩

lemma new_inv (b : Board) (t : Nat) (vp : Position) (g : Game)
    (h : Game.new b t vp = some g) (hszb : 2 ≤ b.size) : GameInv g := by
  obtain ⟨hb, hvp, -, hcs, hr, -, -, hx1, hy1⟩ := new_spec b t vp g h
  refine ⟨by rw [hb]; exact hszb, ?_, ?_, hx1, hy1, hr⟩
  · simp [hcs, hb, hvp]
  · simp [hcs, hb, hvp]

lemma tick_isSome_of_lt (g : Game) (t : Nat) (hinv : GameInv g)
    (hlt : g.time < t) : ∃ g', Game.tick g t = some g' := by
  obtain ⟨hsz, hcx, hcy, hx1, hy1, hr⟩ := hinv
  obtain ⟨out1, hout1, hsz1⟩ := tickBall_isSome ((t - g.time : Nat) : ℚ) g.lit_ball
    g.ball_radius g.cell_size g.viewport_size g.board State.Lit g.board.size
    hsz hcx hcy hx1 hy1 hr rfl
  obtain ⟨p1, m1, b1⟩ := out1
  obtain ⟨out2, hout2, hsz2⟩ := tickBall_isSome ((t - g.time : Nat) : ℚ) g.dark_ball
    g.ball_radius g.cell_size g.viewport_size b1 State.Dark g.board.size
    hsz hcx hcy hx1 hy1 hr hsz1
  obtain ⟨p2, m2, b2⟩ := out2
  refine ⟨{ board := b2
            viewport_size := g.viewport_size
            time := t
            cell_size := g.cell_size
            ball_radius := g.ball_radius
            lit_ball := (p1, m1)
            dark_ball := (p2, m2) }, ?_⟩
  simp only [Game.tick, if_pos hlt, hout1, hout2]

/-- C6: under the construction invariants, `Game::tick(t)` aborts exactly
when `t` is not strictly greater than the stored time (the abort happens at
the leading assertion, before any state is mutated, so the game is left
unchanged); on success the stored time becomes `t`. -/
theorem C6_tick_time_monotonic (g : Game) (t : Nat) (hinv : GameInv g) :
    (Game.tick g t = none ↔ ¬ g.time < t) ∧
    (∀ g', Game.tick g t = some g' → g'.time = t) := by
  constructor
  · constructor
    · intro hnone hlt
      obtain ⟨g', hg'⟩ := tick_isSome_of_lt g t hinv hlt
      rw [hg'] at hnone
      exact Option.noConfusion hnone
    · intro hge
      simp [Game.tick, hge]
  · intro g' h
    simp only [Game.tick] at h
    split_ifs at h with hlt
    · split at h
      · exact Option.noConfusion h
      · split at h
        · exact Option.noConfusion h
        · obtain rfl := (Option.some.inj h).symm
          rfl

/-- Concrete game used by the witnesses (board size 16, viewport
160 by 160). -/
def G0 : Game :=
  ⟨Board.init 16, ⟨160, 160⟩, 0, ⟨10, 10⟩, 5, (⟨40, 80⟩, ⟨40, 100⟩),
    (⟨120, 80⟩, ⟨220, 100⟩)⟩

lemma G0_inv : GameInv G0 := by
  refine ⟨?_, ?_, ?_, ?_, ?_, ?_⟩ <;> norm_num [G0, Board.init]

/-- C6 witness: from the concrete game at time 0, a tick to time 10 succeeds
and stores time 10, while a tick to time 0 aborts. -/
theorem C6_tick_time_monotonic_witness :
    (Game.tick G0 10).map Game.time = some 10 ∧ Game.tick G0 0 = none := by
  have h := C6_tick_time_monotonic G0 10 G0_inv
  have h0 := C6_tick_time_monotonic G0 0 G0_inv
  constructor
  · cases hres : Game.tick G0 10 with
    | none => exact absurd (by decide : G0.time < 10) (h.1.mp hres)
    | some g' => rw [Option.map_some', h.2 g' hres]
  · exact h0.1.mpr (by decide)

/-! Reachable game states and the speed invariant (claim C8). -/

/-- Game states reachable in Rust: built by `Game::new` from a `Board::new`
board, then advanced by any number of successful `Game::tick` calls. -/
inductive Reachable : Game → Prop where
  | base (sz : Nat) (b : Board) (t : Nat) (vp : Position) (g : Game) :
      Board.new sz = some b → Game.new b t vp = some g → Reachable g
  | step (g : Game) (t : Nat) (g' : Game) :
      Reachable g → Game.tick g t = some g' → Reachable g'

/-- Speed invariant: both balls' speeds lie in
`[INITIAL_SPEED, 2 * INITIAL_SPEED]`. -/
def SpeedInv (g : Game) : Prop :=
  INITIAL_SPEED ≤ g.lit_ball.2.speed ∧ g.lit_ball.2.speed ≤ 2 * INITIAL_SPEED ∧
  INITIAL_SPEED ≤ g.dark_ball.2.speed ∧ g.dark_ball.2.speed ≤ 2 * INITIAL_SPEED

lemma bounce_speed_bounds (m : Movement) (ct : CollisionType)
    (h1 : INITIAL_SPEED ≤ m.speed) (h2 : m.speed ≤ 2 * INITIAL_SPEED) :
    INITIAL_SPEED ≤ (m.bounce ct).speed ∧
    (m.bounce ct).speed ≤ 2 * INITIAL_SPEED ∧
    m.speed ≤ (m.bounce ct).speed := by
  have hs : (m.bounce ct).speed = min ((m.speed + 1) % 256) (2 * INITIAL_SPEED) := rfl
  rw [hs]
  simp only [INITIAL_SPEED] at *
  omega

lemma movement_cases_speed (m m' : Movement)
    (hdisj : m' = m ∨ m' = m.bounce CollisionType.Horizontal ∨
      m' = m.bounce CollisionType.Vertical)
    (h1 : INITIAL_SPEED ≤ m.speed) (h2 : m.speed ≤ 2 * INITIAL_SPEED) :
    INITIAL_SPEED ≤ m'.speed ∧ m'.speed ≤ 2 * INITIAL_SPEED ∧
      m.speed ≤ m'.speed := by
  rcases hdisj with rfl | rfl | rfl
  · exact ⟨h1, h2, le_refl _⟩
  · exact bounce_speed_bounds m _ h1 h2
  · exact bounce_speed_bounds m _ h1 h2

lemma boundaries_movement (p : Position) (m : Movement) (r : ℚ) (vp : Position) :
    (Collisions.boundaries p m r vp).2 = m ∨
    (Collisions.boundaries p m r vp).2 = m.bounce CollisionType.Horizontal ∨
    (Collisions.boundaries p m r vp).2 = m.bounce CollisionType.Vertical := by
  simp only [Collisions.boundaries]
  split_ifs <;>
    first
      | exact Or.inl rfl
      | exact Or.inr (Or.inl rfl)
      | exact Or.inr (Or.inr rfl)

lemma tickBall_speed (dt : ℚ) (pm : Position × Movement) (r : ℚ)
    (cs vp : Position) (b : Board) (kind : State)
    (out : Position × Movement × Board)
    (h : Game.tickBall dt pm r cs vp b kind = some out)
    (h1 : INITIAL_SPEED ≤ pm.2.speed) (h2 : pm.2.speed ≤ 2 * INITIAL_SPEED) :
    INITIAL_SPEED ≤ out.2.1.speed ∧ out.2.1.speed ≤ 2 * INITIAL_SPEED ∧
      pm.2.speed ≤ out.2.1.speed := by
  simp only [Game.tickBall] at h
  split at h
  · exact Option.noConfusion h
  · rename_i p3 m3 b3 fl heq
    obtain rfl := (Option.some.inj h).symm
    have hspec := board_spec _ _ _ _ _ _ _ heq
    have hbm := boundaries_movement (pm.2.apply dt pm.1) pm.2 r vp
    have hmid := movement_cases_speed pm.2
      (Collisions.boundaries (pm.2.apply dt pm.1) pm.2 r vp).2 hbm h1 h2
    have hfin := movement_cases_speed
      (Collisions.boundaries (pm.2.apply dt pm.1) pm.2 r vp).2 m3
      hspec.2.1 hmid.1 hmid.2.1
    exact ⟨hfin.1, hfin.2.1, le_trans hmid.2.2 hfin.2.2⟩

lemma tick_speed (g : Game) (t : Nat) (g' : Game) (h : Game.tick g t = some g')
    (hinv : SpeedInv g) :
    SpeedInv g' ∧ g.lit_ball.2.speed ≤ g'.lit_ball.2.speed ∧
      g.dark_ball.2.speed ≤ g'.dark_ball.2.speed := by
  obtain ⟨hl1, hl2, hd1, hd2⟩ := hinv
  simp only [Game.tick] at h
  split_ifs at h with hlt
  · split at h
    · exact Option.noConfusion h
    · rename_i p1 m1 b1 heq1
      split at h
      · exact Option.noConfusion h
      · rename_i p2 m2 b2 heq2
        obtain rfl := (Option.some.inj h).symm
        have hlit := tickBall_speed _ _ _ _ _ _ _ _ heq1 hl1 hl2
        have hdark := tickBall_speed _ _ _ _ _ _ _ _ heq2 hd1 hd2
        exact ⟨⟨hlit.1, hlit.2.1, hdark.1, hdark.2.1⟩, hlit.2.2, hdark.2.2⟩

lemma new_speedInv (b : Board) (t : Nat) (vp : Position) (g : Game)
    (h : Game.new b t vp = some g) : SpeedInv g := by
  obtain ⟨-, -, -, -, -, hlball, hdball, -, -⟩ := new_spec b t vp g h
  refine ⟨?_, ?_, ?_, ?_⟩ <;> simp [hlball, hdball, INITIAL_SPEED]

lemma reachable_speedInv (g : Game) (h : Reachable g) : SpeedInv g := by
  induction h with
  | base sz b t vp g hb hg => exact new_speedInv b t vp g hg
  | step g t g' hr htick ih => exact (tick_speed g t g' htick ih).1

/-- C8: in every game state reachable from `Game::new` through successful
ticks, both balls' speeds lie in `[INITIAL_SPEED, 2 * INITIAL_SPEED]`;
across a single tick no speed decreases; each bounce sets the speed to
`min(speed + 1, 2 * INITIAL_SPEED)` and never decreases it; only bounces
touch the speed (`Movement::apply` takes the movement immutably). -/
theorem C8_speed_bounds :
    (∀ g, Reachable g → SpeedInv g) ∧
    (∀ g t g', Reachable g → Game.tick g t = some g' →
      g.lit_ball.2.speed ≤ g'.lit_ball.2.speed ∧
      g.dark_ball.2.speed ≤ g'.dark_ball.2.speed) ∧
    (∀ (m : Movement) (ct : CollisionType),
      INITIAL_SPEED ≤ m.speed → m.speed ≤ 2 * INITIAL_SPEED →
      (m.bounce ct).speed = min (m.speed + 1) (2 * INITIAL_SPEED) ∧
      m.speed ≤ (m.bounce ct).speed) := by
  refine ⟨reachable_speedInv, ?_, ?_⟩
  · intro g t g' hr htick
    exact (tick_speed g t g' htick (reachable_speedInv g hr)).2
  · intro m ct h1 h2
    constructor
    · have hs : (m.bounce ct).speed = min ((m.speed + 1) % 256) (2 * INITIAL_SPEED) :=
        rfl
      rw [hs]
      simp only [INITIAL_SPEED] at *
      omega
    · exact (bounce_speed_bounds m ct h1 h2).2.2

/-- C8 witness: the freshly constructed concrete game is reachable and its
Lit ball's speed is within the bounds. -/
theorem C8_speed_bounds_witness :
    (Game.new (Board.init 16) 0 ⟨160, 160⟩).elim False
      (fun g => INITIAL_SPEED ≤ g.lit_ball.2.speed ∧
        g.lit_ball.2.speed ≤ 2 * INITIAL_SPEED) := by
  cases hg : Game.new (Board.init 16) 0 ⟨160, 160⟩ with
  | none =>
    norm_num [Game.new, Board.init] at hg
    exact Option.noConfusion hg
  | some g =>
    have hre : Reachable g := Reachable.base 16 (Board.init 16) 0 ⟨160, 160⟩ g
      (by norm_num [Board.new]) hg
    have hs := C8_speed_bounds.1 g hre
    simp only [Option.elim]
    exact ⟨hs.1, hs.2.1⟩

end WasmGame
